import Mathlib

/-!
Verification of the event-processing core of `python-whos-playing-the-villages`:
the field-path extractor, venue normalizer and event projector of
`src/event_processor.py`, and the multi-format renderer of
`src/output_formatter.py`, shallowly embedded in Lean.

JSON-like values are modelled by the inductive `JSON` below (numbers are
modelled as integers; no claim under scrutiny depends on float formatting).
Python exceptions are modelled by `Except PyError`; a Python function that can
raise is embedded as a function into `Except PyError _`.
-/

/-- A JSON-like Python value: the arbitrary tree of string-keyed maps,
sequences, scalars and null that a RawEvent is made of. Objects are ordered
association lists, mirroring Python dict insertion order. -/
inductive JSON where
  | null : JSON
  | bool (b : Bool) : JSON
  | num (n : Int) : JSON
  | str (s : String) : JSON
  | arr (xs : List JSON) : JSON
  | obj (kvs : List (String × JSON)) : JSON

/-- The Python exception classes that the embedded code can raise. -/
inductive PyError where
  | typeError (msg : String) : PyError
  | processingError (msg : String) : PyError
  | valueError (msg : String) : PyError
deriving DecidableEq, Repr

/-- Python truthiness (`if value:`) of a JSON-like value: null, False, 0,
empty string, empty list and empty dict are falsy, all else truthy. -/
def JSON.truthy : JSON → Bool
  | .null => false
  | .bool b => b
  | .num n => n != 0
  | .str s => !s.isEmpty
  | .arr xs => !xs.isEmpty
  | .obj kvs => !kvs.isEmpty

/-- First-match lookup in an ordered string-keyed map (Python `d[k]` /
`k in d`; dict keys are unique so first match is the match). -/
def lookupStr : List (String × JSON) → String → Option JSON
  | [], _ => none
  | (k, v) :: rest, key => if k = key then some v else lookupStr rest key

/-- Python `d.get(k, default)`. -/
def dictGet (d : List (String × JSON)) (key : String) (dflt : JSON) : JSON :=
  (lookupStr d key).getD dflt

/-- Python `d[k] = v` on an ordered dict: replaces the value in place if the
key is present (keeping its position), otherwise appends the new pair. -/
def dictInsert : List (String × JSON) → String → JSON → List (String × JSON)
  | [], key, v => [(key, v)]
  | (k, w) :: rest, key, v =>
    if k = key then (key, v) :: rest else (k, w) :: dictInsert rest key v

/-- Does `needle` occur at the start of `hay`? (helper for substring tests). -/
def startsWithList : List Char → List Char → Bool
  | [], _ => true
  | _ :: _, [] => false
  | a :: as, b :: bs => a == b && startsWithList as bs

/-- Does `needle` occur contiguously inside `hay`? (helper for `strContains`). -/
def occursIn : List Char → List Char → Bool
  | needle, [] => needle.isEmpty
  | needle, c :: rest => startsWithList needle (c :: rest) || occursIn needle rest

/-- Python `needle in hay` for strings: contiguous, case-sensitive substring
containment (the empty needle is contained in every string). -/
def strContains (needle hay : String) : Bool :=
  occursIn needle.data hay.data

/-- Splitting a character list at every occurrence of `sep`, without
collapsing: the splitting core of Python `str.split(sep)` for a one-character
separator (the empty input yields one empty segment). -/
def splitOnChar (sep : Char) : List Char → List (List Char)
  | [] => [[]]
  | c :: rest =>
    match splitOnChar sep rest with
    | [] => if c = sep then [[], []] else [[c]]
    | s :: ss => if c = sep then [] :: s :: ss else (c :: s) :: ss

/-- Python `field_path.split('.')`: `""` splits to `[""]`, and separators are
never collapsed. -/
def pySplitDot (s : String) : List String :=
  (splitOnChar '.' s.data).map String.mk

/-- `EventProcessor.extract_field`, inner walk: navigate the already-split
path segments through nested dictionaries; a non-dict node or an absent key
yields the empty string, and a null leaf is converted to the empty string. -/
def extractSegs : JSON → List String → JSON
  | .null, [] => JSON.str ""
  | current, [] => current
  | current, part :: rest =>
    match current with
    | .obj kvs =>
      match lookupStr kvs part with
      | some v => extractSegs v rest
      | none => JSON.str ""
    | _ => JSON.str ""

/-- `EventProcessor.extract_field` (src/event_processor.py:49-75): split the
dot-delimited path and walk it. Total: extraction never raises. -/
def extractField (event : JSON) (fieldPath : String) : JSON :=
  extractSegs event (pySplitDot fieldPath)

/-- Python `keyword in venue` where `venue` is an arbitrary value: substring
test on strings, key membership on dicts, element membership on lists; a
TypeError on every non-container (numbers, booleans, null). -/
def pyIn (keyword : String) : JSON → Except PyError Bool
  | .str s => .ok (strContains keyword s)
  | .obj kvs => .ok (kvs.any (fun kv => kv.1 = keyword))
  | .arr xs =>
    .ok (xs.any (fun v => match v with | .str s => s == keyword | _ => false))
  | _ => .error (.typeError "argument of type is not iterable")

/-- The keyword loop of `EventProcessor.abbreviate_venue`: return the
abbreviation of the first keyword contained in the venue, else the venue. -/
def abbreviateLoop (venue : JSON) : List (String × String) → Except PyError JSON
  | [] => .ok venue
  | (keyword, abbreviation) :: rest =>
    match pyIn keyword venue with
    | .error e => .error e
    | .ok true => .ok (JSON.str abbreviation)
    | .ok false => abbreviateLoop venue rest

/-- `EventProcessor.abbreviate_venue` (src/event_processor.py:28-47), at the
dynamic type actually passed to it (its `str` annotation is not enforced):
falsy input is returned unchanged, otherwise the first mapping keyword
contained in the venue wins. -/
def abbreviateVenue (mappings : List (String × String)) (venue : JSON) :
    Except PyError JSON :=
  if !venue.truthy then .ok venue else abbreviateLoop venue mappings

/-- One iteration of the field loop in `EventProcessor.process_events`
(src/event_processor.py:105-114): extract the field, and pass it through the
venue normalizer exactly when the path is `"location.title"` and the value is
truthy. -/
def projectField (mappings : List (String × String)) (event : JSON)
    (fieldPath : String) : Except PyError JSON :=
  let value := extractField event fieldPath
  if fieldPath = "location.title" && value.truthy then
    abbreviateVenue mappings value
  else
    .ok value

/-- The field loop of `EventProcessor.process_events`: builds `event_data`
by dict assignment, propagating any exception (caught by the per-event guard
at the caller). -/
def projectLoop (mappings : List (String × String)) (event : JSON) :
    List String → List (String × JSON) → Except PyError (List (String × JSON))
  | [], acc => .ok acc
  | fieldPath :: rest, acc =>
    match projectField mappings event fieldPath with
    | .error e => .error e
    | .ok v => projectLoop mappings event rest (dictInsert acc fieldPath v)

/-- Projection of one RawEvent: the body of the per-event `try` block of
`EventProcessor.process_events` (src/event_processor.py:100-117). -/
def projectEvent (mappings : List (String × String)) (outputFields : List String)
    (event : JSON) : Except PyError (List (String × JSON)) :=
  projectLoop mappings event outputFields []

/-- `EventProcessor.process_events` (src/event_processor.py:77-123): raise a
ProcessingError when the `events` key is missing or its value is not a list;
otherwise project each event, skipping (with a logged warning) any event whose
projection raises. -/
def processEvents (mappings : List (String × String)) (outputFields : List String)
    (apiResponse : List (String × JSON)) :
    Except PyError (List (List (String × JSON))) :=
  match lookupStr apiResponse "events" with
  | none => .error (.processingError "Missing 'events' key in API response")
  | some events =>
    match events with
    | .arr evs =>
      .ok (evs.filterMap (fun e => (projectEvent mappings outputFields e).toOption))
    | _ => .error (.processingError "'events' field is not a list")

/-- A ProjectedEvent: the flat ordered field-to-value map produced per RawEvent. -/
abbrev ProjectedEvent := List (String × JSON)

mutual

/-- Python `repr` of a JSON-like value, as used by `str()` on containers
(string escaping inside `repr` of strings is not modelled; no claim under
scrutiny depends on it). `pyReprList` and `pyReprObj` render the
comma-separated element lists of sequences and dicts. -/
def pyRepr : JSON → String
  | .null => "None"
  | .bool true => "True"
  | .bool false => "False"
  | .num n => toString n
  | .str s => "'" ++ s ++ "'"
  | .arr xs => "[" ++ pyReprList xs ++ "]"
  | .obj kvs => "\x7b" ++ pyReprObj kvs ++ "\x7d"
termination_by j => sizeOf j

def pyReprList : List JSON → String
  | [] => ""
  | [x] => pyRepr x
  | x :: y :: xs => pyRepr x ++ ", " ++ pyReprList (y :: xs)
termination_by xs => sizeOf xs

def pyReprObj : List (String × JSON) → String
  | [] => ""
  | [(k, v)] => "'" ++ k ++ "': " ++ pyRepr v
  | (k, v) :: kv :: kvs => "'" ++ k ++ "': " ++ pyRepr v ++ ", " ++ pyReprObj (kv :: kvs)
termination_by kvs => sizeOf kvs

end

/-- Python `str()` of a JSON-like value: the identity on strings, `repr`-like
on everything else (as the formatters apply it to field values). -/
def pyStr : JSON → String
  | .str s => s
  | v => pyRepr v

/-- `OutputFormatter.format_meshtastic` (src/output_formatter.py:12-37):
first two fields per event joined by a comma, events joined by `#`, a
trailing `#` appended; the empty event list renders as `"#"`. -/
def formatMeshtastic (events : List ProjectedEvent) (fieldNames : List String) : String :=
  if events.isEmpty then "#"
  else
    let fieldsToUse := if fieldNames.length ≥ 2 then fieldNames.take 2 else fieldNames
    String.intercalate "#"
      (events.map (fun event =>
        String.intercalate ","
          (fieldsToUse.map (fun f => pyStr (dictGet event f (JSON.str "")))))) ++ "#"

/-- `n` spaces, for JSON pretty-printing indentation. -/
def spacesN (n : Nat) : String := String.mk (List.replicate n ' ')

/-- JSON string escaping as `json.dumps` performs it (the common escapes;
exotic control characters are not modelled, no claim depends on them). -/
def jsonEscape (s : String) : String :=
  s.data.foldr
    (fun c acc =>
      (match c with
       | '\\' => "\\\\"
       | '"' => "\\\""
       | '\n' => "\\n"
       | '\r' => "\\r"
       | '\t' => "\\t"
       | c => String.singleton c) ++ acc) ""

mutual

/-- Python `json.dumps(value, indent=2)` at indentation level `indent`:
empty containers print inline, non-empty ones one element per line, indented
two further spaces. `pyJsonDumpList` and `pyJsonDumpObj` render the
`,\n`-separated member lines. -/
def pyJsonDump (indent : Nat) : JSON → String
  | .null => "null"
  | .bool true => "true"
  | .bool false => "false"
  | .num n => toString n
  | .str s => "\"" ++ jsonEscape s ++ "\""
  | .arr [] => "[]"
  | .arr (x :: xs) =>
    "[\n" ++ pyJsonDumpList (indent + 2) (x :: xs) ++ "\n" ++ spacesN indent ++ "]"
  | .obj [] => "\x7b\x7d"
  | .obj (kv :: kvs) =>
    "\x7b\n" ++ pyJsonDumpObj (indent + 2) (kv :: kvs) ++ "\n" ++ spacesN indent ++ "\x7d"
termination_by j => sizeOf j

def pyJsonDumpList (indent : Nat) : List JSON → String
  | [] => ""
  | [x] => spacesN indent ++ pyJsonDump indent x
  | x :: y :: xs =>
    spacesN indent ++ pyJsonDump indent x ++ ",\n" ++ pyJsonDumpList indent (y :: xs)
termination_by xs => sizeOf xs

def pyJsonDumpObj (indent : Nat) : List (String × JSON) → String
  | [] => ""
  | [(k, v)] => spacesN indent ++ "\"" ++ jsonEscape k ++ "\": " ++ pyJsonDump indent v
  | (k, v) :: kv :: kvs =>
    spacesN indent ++ "\"" ++ jsonEscape k ++ "\": " ++ pyJsonDump indent v ++ ",\n" ++
      pyJsonDumpObj indent (kv :: kvs)
termination_by kvs => sizeOf kvs

end

/-- `OutputFormatter.format_json` (src/output_formatter.py:39-52):
`json.dumps(events, indent=2)`. -/
def formatJson (events : List ProjectedEvent) : String :=
  pyJsonDump 0 (JSON.arr (events.map JSON.obj))

/-- Doubling every quote character, as `csv.writer` escapes embedded quotes. -/
def escQuotes : List Char → List Char
  | [] => []
  | c :: rest => if c = '"' then '"' :: '"' :: escQuotes rest else c :: escQuotes rest

/-- One CSV field under `csv.writer`'s default QUOTE_MINIMAL dialect: quoted
(with embedded quotes doubled) exactly when it contains the delimiter, the
quote character, or a line-terminator character. -/
def csvQuote (s : String) : String :=
  if s.data.any (fun c => c == ',' || c == '"' || c == '\r' || c == '\n') then
    "\"" ++ String.mk (escQuotes s.data) ++ "\""
  else s

/-- One `csv.writer.writerow` line: comma-joined quoted cells plus the
default `\r\n` line terminator. -/
def csvRow (cells : List String) : String :=
  String.intercalate "," (cells.map csvQuote) ++ "\r\n"

/-- `OutputFormatter.format_csv` (src/output_formatter.py:54-79): the header
row, then one row per event accumulated in order. -/
def formatCsv (events : List ProjectedEvent) (fieldNames : List String) : String :=
  events.foldl
    (fun acc event =>
      acc ++ csvRow (fieldNames.map (fun f => pyStr (dictGet event f (JSON.str "")))))
    (csvRow fieldNames)

/-- `OutputFormatter.format_plain` (src/output_formatter.py:81-103): one
`field: value, ...` line per event, newline-terminated; empty input renders
as the empty string. -/
def formatPlain (events : List ProjectedEvent) (fieldNames : List String) : String :=
  if events.isEmpty then ""
  else
    String.intercalate "\n"
      (events.map (fun event =>
        String.intercalate ", "
          (fieldNames.map (fun f => f ++ ": " ++ pyStr (dictGet event f (JSON.str "")))))) ++
      "\n"

/-- `OutputFormatter.format_events` (src/output_formatter.py:105-140): the
renderer dispatch; an unrecognized format identifier raises a ValueError
naming the identifier and listing the valid options. -/
def formatEvents (events : List ProjectedEvent) (formatType : String)
    (fieldNames : Option (List String)) : Except PyError String :=
  let fns := fieldNames.getD ["location.title", "title"]
  if formatType = "meshtastic" then .ok (formatMeshtastic events fns)
  else if formatType = "json" then .ok (formatJson events)
  else if formatType = "csv" then .ok (formatCsv events fns)
  else if formatType = "plain" then .ok (formatPlain events fns)
  else
    .error (.valueError
      ("Invalid format type: " ++ formatType ++
        ". Valid options are: meshtastic, json, csv, plain"))

/-- Scenario A RawEvent: nested location/title record. -/
def scenarioEvent : JSON :=
  .obj [("location", .obj [("title", .str "Brownwood Paddock Square")]),
        ("title", .str "Jazz Band")]

/-- Scenario A API response: a batch with one event. -/
def scenarioResponse : List (String × JSON) := [("events", JSON.arr [scenarioEvent])]

/-- Scenario A FieldSet. -/
def scenarioFields : List String := ["location.title", "title"]

/-- Scenario A VenueMapping. -/
def scenarioMapping : List (String × String) := [("Brownwood", "Brownwood")]

/-- The spec-side path resolver for the extraction claim: walk the segments
through string-keyed maps, `none` when a node is not a map or a key is
absent; no empty-string or null coercion. `extractField` is proved to refine
this resolver composed with the leaf coercion. -/
def resolvePath : JSON → List String → Option JSON
  | v, [] => some v
  | .obj kvs, part :: rest =>
    (match lookupStr kvs part with
     | some v => resolvePath v rest
     | none => none)
  | _, _ :: _ => none

/-- Ordered-set insertion on key lists: the effect of one dict assignment on
the key order of a Python dict. -/
def insKey (ks : List String) (k : String) : List String :=
  if k ∈ ks then ks else ks ++ [k]

/-- The values on which Python `_ in value` succeeds (strings, lists, dicts);
on all others it raises a TypeError. -/
def pyInSupported : JSON → Bool
  | .str _ => true
  | .arr _ => true
  | .obj _ => true
  | _ => false

/-- The segment walk of `extract_field` refines the spec-side resolver
composed with the not-found/null-to-empty-string coercion. -/
theorem extractSegs_eq_resolvePath (segs : List String) (v : JSON) :
    extractSegs v segs =
      match resolvePath v segs with
      | none => JSON.str ""
      | some JSON.null => JSON.str ""
      | some w => w := by
  induction segs generalizing v with
  | nil => cases v <;> rfl
  | cons part rest ih =>
    cases v with
    | obj kvs =>
      simp only [extractSegs, resolvePath]
      cases lookupStr kvs part with
      | none => rfl
      | some w => exact ih w
    | null => rfl
    | bool b => rfl
    | num n => rfl
    | str s => rfl
    | arr xs => rfl

/-- C1: for every RawEvent and dot-delimited path, extraction walks the path
segment by segment, yields the empty string when a node is not a string-keyed
map or a key is absent, yields the empty string on a null leaf, and otherwise
yields the leaf as-is; being a total function of the embedding, it never
raises. -/
theorem extractField_walks_path (event : JSON) (fieldPath : String) :
    extractField event fieldPath =
      match resolvePath event (pySplitDot fieldPath) with
      | none => JSON.str ""
      | some JSON.null => JSON.str ""
      | some v => v :=
  extractSegs_eq_resolvePath (pySplitDot fieldPath) event

/-- C10 counterexample: on the RawEvent `{"a": "x"}` the empty path yields
the empty string, not the event itself as the claim states. -/
theorem extractField_empty_path_cex :
    extractField (JSON.obj [("a", JSON.str "x")]) "" = JSON.str "" ∧
    extractField (JSON.obj [("a", JSON.str "x")]) "" ≠ JSON.obj [("a", JSON.str "x")] :=
  ⟨rfl, fun h => JSON.noConfusion h⟩

/-- C10 (amended): splitting the empty path produces the single empty
segment, so extraction with the empty path navigates one step: it yields the
value under the key `""` if the event is a string-keyed map containing that
key (the empty string if that value is null), and the empty string otherwise
— never the event itself. -/
theorem extractField_empty_path (event : JSON) :
    extractField event "" =
      match event with
      | JSON.obj kvs =>
        (match lookupStr kvs "" with
         | some JSON.null => JSON.str ""
         | some v => v
         | none => JSON.str "")
      | _ => JSON.str "" := by
  show extractSegs event (pySplitDot "") = _
  rw [show (pySplitDot "") = [""] from rfl]
  cases event with
  | obj kvs =>
    simp only [extractSegs]
    cases lookupStr kvs "" with
    | none => rfl
    | some v => cases v <;> rfl
  | null => rfl
  | bool b => rfl
  | num n => rfl
  | str s => rfl
  | arr xs => rfl

/-- The keyword loop of the venue normalizer returns the abbreviation of the
first keyword (in mapping order) contained in the venue string, else the
venue unchanged. -/
theorem abbreviateLoop_str (venue : String) (mappings : List (String × String)) :
    abbreviateLoop (JSON.str venue) mappings =
      Except.ok
        (match mappings.find? (fun kv => strContains kv.1 venue) with
         | some kv => JSON.str kv.2
         | none => JSON.str venue) := by
  induction mappings with
  | nil => rfl
  | cons kv rest ih =>
    obtain ⟨keyword, abbreviation⟩ := kv
    simp only [abbreviateLoop, pyIn]
    cases h : strContains keyword venue with
    | true => rw [List.find?_cons_of_pos rest (by simpa using h)]
    | false =>
      rw [List.find?_cons_of_neg rest (by simpa using h)]
      exact ih

/-- C3: for every venue string and VenueMapping, the venue normalizer returns
the abbreviation of the first keyword (in mapping iteration order) that is a
case-sensitive substring of the venue; if no keyword is a substring, or the
venue is empty, the input comes back unchanged. -/
theorem abbreviateVenue_spec (mappings : List (String × String)) (venue : String) :
    abbreviateVenue mappings (JSON.str venue) =
      Except.ok
        (if venue = "" then JSON.str venue
         else
           match mappings.find? (fun kv => strContains kv.1 venue) with
           | some kv => JSON.str kv.2
           | none => JSON.str venue) := by
  by_cases h : venue = ""
  · subst h; rfl
  · have he : venue.isEmpty = false := by
      rw [Bool.eq_false_iff]
      intro hi
      exact h ((String.isEmpty_iff venue).mp hi)
    have ht : (JSON.str venue).truthy = true := by
      simp [JSON.truthy, he]
    rw [abbreviateVenue, ht, if_neg h]
    simp only [Bool.not_true, Bool.false_eq_true, if_false]
    exact abbreviateLoop_str venue mappings

/-- Membership after one ordered key insertion. -/
theorem mem_insKey (ks : List String) (k f : String) :
    f ∈ insKey ks k ↔ f ∈ ks ∨ f = k := by
  unfold insKey
  by_cases h : k ∈ ks
  · rw [if_pos h]
    constructor
    · exact Or.inl
    · rintro (hf | rfl)
      · exact hf
      · exact h
  · rw [if_neg h]
    simp [List.mem_append]

/-- A dict assignment acts on the key list as `insKey`. -/
theorem dictInsert_map_fst (acc : List (String × JSON)) (k : String) (v : JSON) :
    (dictInsert acc k v).map Prod.fst = insKey (acc.map Prod.fst) k := by
  induction acc with
  | nil => simp [dictInsert, insKey]
  | cons p rest ih =>
    obtain ⟨k1, w⟩ := p
    by_cases h : k1 = k
    · subst h
      simp [dictInsert, insKey]
    · simp only [dictInsert, if_neg h, List.map_cons, ih, insKey]
      by_cases h2 : k ∈ rest.map Prod.fst
      · rw [if_pos h2, if_pos (List.mem_cons_of_mem k1 h2)]
      · rw [if_neg h2, if_neg (by
          rw [List.mem_cons]
          rintro (rfl | hc)
          · exact h rfl
          · exact h2 hc)]
        rfl

/-- Membership in a fold of ordered key insertions. -/
theorem foldl_insKey_mem (fs : List String) :
    ∀ (ks : List String) (f : String),
      f ∈ List.foldl insKey ks fs ↔ f ∈ ks ∨ f ∈ fs := by
  induction fs with
  | nil => intro ks f; simp
  | cons g rest ih =>
    intro ks f
    rw [List.foldl_cons, ih, mem_insKey]
    simp only [List.mem_cons]
    tauto

/-- Ordered key insertion preserves key distinctness. -/
theorem foldl_insKey_nodup (fs : List String) :
    ∀ ks : List String, ks.Nodup → (List.foldl insKey ks fs).Nodup := by
  induction fs with
  | nil => intro ks h; simpa using h
  | cons g rest ih =>
    intro ks h
    rw [List.foldl_cons]
    apply ih
    unfold insKey
    by_cases hg : g ∈ ks
    · rwa [if_pos hg]
    · rw [if_neg hg, List.nodup_append]
      exact ⟨h, List.nodup_singleton g,
        fun x hx hxg => hg (List.mem_singleton.mp hxg ▸ hx)⟩

/-- The key set after a fold of ordered key insertions. -/
theorem foldl_insKey_toFinset (fs : List String) :
    ∀ ks : List String,
      (List.foldl insKey ks fs).toFinset = ks.toFinset ∪ fs.toFinset := by
  induction fs with
  | nil => intro ks; simp
  | cons g rest ih =>
    intro ks
    rw [List.foldl_cons, ih]
    have hins : (insKey ks g).toFinset = insert g ks.toFinset := by
      unfold insKey
      by_cases hg : g ∈ ks
      · rw [if_pos hg, Finset.insert_eq_self.mpr (by simpa using hg)]
      · rw [if_neg hg, List.toFinset_append]
        simp only [List.toFinset_cons, List.toFinset_nil, insert_emptyc_eq]
        rw [Finset.union_comm, ← Finset.insert_eq]
    rw [hins]
    simp [Finset.insert_union, Finset.union_insert]

/-- The key list of a successful field loop is the fold of ordered key
insertions over the FieldSet. -/
theorem projectLoop_map_fst (mappings : List (String × String)) (event : JSON)
    (fs : List String) :
    ∀ (acc d : List (String × JSON)),
      projectLoop mappings event fs acc = Except.ok d →
      d.map Prod.fst = List.foldl insKey (acc.map Prod.fst) fs := by
  induction fs with
  | nil =>
    intro acc d h
    simp only [projectLoop] at h
    injection h with h2
    subst h2
    rfl
  | cons f rest ih =>
    intro acc d h
    simp only [projectLoop] at h
    cases hpf : projectField mappings event f with
    | error e => rw [hpf] at h; cases h
    | ok v =>
      rw [hpf] at h
      rw [List.foldl_cons, ← dictInsert_map_fst]
      exact ih (dictInsert acc f v) d h

/-- C2 counterexample: with the duplicate FieldSet `["a", "a"]` and the empty
RawEvent `{}`, projection succeeds and the ProjectedEvent has exactly one
key, not two (dict assignment collapses duplicate field paths). -/
theorem projectEvent_keyCount_cex :
    projectEvent [] ["a", "a"] (JSON.obj []) = Except.ok [("a", JSON.str "")] ∧
    ([("a", JSON.str "")] : ProjectedEvent).length ≠ 2 :=
  ⟨rfl, by decide⟩

/-- C2 (amended): for every FieldSet and RawEvent whose projection succeeds,
the ProjectedEvent contains every field path of the FieldSet as a key, and
the number of keys equals the number of distinct entries of the FieldSet
(equivalently, the number of entries whenever the FieldSet is
duplicate-free). -/
theorem projectEvent_keys (mappings : List (String × String)) (fields : List String)
    (event : JSON) (d : ProjectedEvent)
    (h : projectEvent mappings fields event = Except.ok d) :
    (∀ f ∈ fields, f ∈ d.map Prod.fst) ∧ d.length = fields.dedup.length := by
  have hkeys : d.map Prod.fst = List.foldl insKey [] fields :=
    projectLoop_map_fst mappings event fields [] d h
  constructor
  · intro f hf
    rw [hkeys, foldl_insKey_mem]
    exact Or.inr hf
  · have hlen : d.length = (d.map Prod.fst).length := by simp
    have hnd : (List.foldl insKey [] fields).Nodup :=
      foldl_insKey_nodup fields [] List.nodup_nil
    have hfs : (List.foldl insKey [] fields).toFinset = fields.toFinset := by
      rw [foldl_insKey_toFinset]; simp
    rw [hlen, hkeys, ← List.toFinset_card_of_nodup hnd, hfs]
    exact List.card_toFinset fields

/-- Witness for `projectEvent_keys` at a concrete projection. -/
theorem projectEvent_keys_witness :
    projectEvent [] ["t"] (JSON.obj []) = Except.ok [("t", JSON.str "")] ∧
    ((∀ f ∈ (["t"] : List String),
        f ∈ ([("t", JSON.str "")] : ProjectedEvent).map Prod.fst) ∧
      ([("t", JSON.str "")] : ProjectedEvent).length =
        (["t"] : List String).dedup.length) :=
  ⟨rfl, projectEvent_keys [] ["t"] (JSON.obj []) [("t", JSON.str "")] rfl⟩

/-- Every entry of a dict after an assignment was already present or is the
assigned pair. -/
theorem mem_dictInsert (acc : List (String × JSON)) (k : String) (v : JSON)
    (e : String × JSON) (h : e ∈ dictInsert acc k v) : e ∈ acc ∨ e = (k, v) := by
  induction acc with
  | nil =>
    simp only [dictInsert, List.mem_singleton] at h
    exact Or.inr h
  | cons p rest ih =>
    obtain ⟨k1, w⟩ := p
    by_cases hk : k1 = k
    · rw [dictInsert, if_pos hk] at h
      rcases List.mem_cons.mp h with h1 | h1
      · exact Or.inr h1
      · exact Or.inl (List.mem_cons_of_mem _ h1)
    · rw [dictInsert, if_neg hk] at h
      rcases List.mem_cons.mp h with h1 | h1
      · exact Or.inl (h1 ▸ List.mem_cons_self _ _)
      · rcases ih h1 with h2 | h2
        · exact Or.inl (List.mem_cons_of_mem _ h2)
        · exact Or.inr h2

/-- Every entry of a successful field loop's result satisfies the per-field
contract `projectField`, provided the accumulator already does. -/
theorem projectLoop_mem (mappings : List (String × String)) (event : JSON)
    (fs : List String) :
    ∀ acc d : List (String × JSON),
      (∀ e ∈ acc, projectField mappings event e.1 = Except.ok e.2) →
      projectLoop mappings event fs acc = Except.ok d →
      ∀ e ∈ d, projectField mappings event e.1 = Except.ok e.2 := by
  induction fs with
  | nil =>
    intro acc d hacc h
    simp only [projectLoop] at h
    injection h with h2
    subst h2
    exact hacc
  | cons f rest ih =>
    intro acc d hacc h
    simp only [projectLoop] at h
    cases hpf : projectField mappings event f with
    | error e => rw [hpf] at h; cases h
    | ok v =>
      rw [hpf] at h
      refine ih (dictInsert acc f v) d ?_ h
      intro e he
      rcases mem_dictInsert acc f v e he with h1 | h1
      · exact hacc e h1
      · rw [h1]
        exact hpf

/-- C4: during projection, every stored pair `(p, v)` was produced by the
venue normalizer exactly when `p` is literally `"location.title"` and the
extracted value is non-empty (truthy); for every other field path, and for a
falsy extracted value, the stored value is the extracted value unmodified. -/
theorem projectEvent_venue_application (mappings : List (String × String))
    (fields : List String) (event : JSON) (d : ProjectedEvent)
    (h : projectEvent mappings fields event = Except.ok d)
    (p : String) (v : JSON) (hmem : (p, v) ∈ d) :
    (p = "location.title" ∧ (extractField event p).truthy = true →
      abbreviateVenue mappings (extractField event p) = Except.ok v) ∧
    (¬ (p = "location.title" ∧ (extractField event p).truthy = true) →
      v = extractField event p) := by
  have hpf : projectField mappings event p = Except.ok v :=
    projectLoop_mem mappings event fields [] d (by intro e he; cases he) h (p, v) hmem
  rw [projectField] at hpf
  constructor
  · rintro ⟨hp, ht⟩
    rw [if_pos (by subst hp; simp [ht])] at hpf
    exact hpf
  · intro hn
    rw [if_neg (by
      intro hb
      rcases Bool.and_eq_true_iff.mp hb with ⟨hb1, hb2⟩
      exact hn ⟨by simpa using hb1, hb2⟩)] at hpf
    injection hpf with h2
    exact h2.symm

/-- Witness for `projectEvent_venue_application` at the Scenario A event. -/
theorem projectEvent_venue_application_witness :
    projectEvent scenarioMapping scenarioFields scenarioEvent =
      Except.ok [("location.title", JSON.str "Brownwood"),
                 ("title", JSON.str "Jazz Band")] ∧
    (("title" = "location.title" ∧
        (extractField scenarioEvent "title").truthy = true →
      abbreviateVenue scenarioMapping (extractField scenarioEvent "title") =
        Except.ok (JSON.str "Jazz Band")) ∧
     (¬ ("title" = "location.title" ∧
          (extractField scenarioEvent "title").truthy = true) →
      JSON.str "Jazz Band" = extractField scenarioEvent "title")) :=
  ⟨rfl,
   projectEvent_venue_application scenarioMapping scenarioFields scenarioEvent
     [("location.title", JSON.str "Brownwood"), ("title", JSON.str "Jazz Band")]
     rfl "title" (JSON.str "Jazz Band") (List.Mem.tail _ (List.Mem.head _))⟩

/-- `pyIn` succeeds on every value supporting Python `in`. -/
theorem pyIn_ok (keyword : String) (v : JSON) (h : pyInSupported v = true) :
    (pyIn keyword v).isOk = true := by
  cases v with
  | str s => rfl
  | arr xs => rfl
  | obj kvs => rfl
  | null => exact absurd h Bool.false_ne_true
  | bool b => exact absurd h Bool.false_ne_true
  | num n => exact absurd h Bool.false_ne_true

/-- The venue keyword loop succeeds on every value supporting Python `in`. -/
theorem abbreviateLoop_ok (v : JSON) (h : pyInSupported v = true)
    (mappings : List (String × String)) :
    (abbreviateLoop v mappings).isOk = true := by
  induction mappings with
  | nil => rfl
  | cons kv rest ih =>
    obtain ⟨keyword, abbreviation⟩ := kv
    have hok := pyIn_ok keyword v h
    rw [abbreviateLoop]
    cases hp : pyIn keyword v with
    | error e => rw [hp] at hok; exact absurd hok Bool.false_ne_true
    | ok b =>
      cases b
      · exact ih
      · rfl

/-- The venue normalizer raises only on truthy numbers and booleans. -/
theorem abbreviateVenue_ok (mappings : List (String × String)) (v : JSON)
    (hb : ∀ b, v ≠ JSON.bool b) (hn : ∀ n, v ≠ JSON.num n) :
    (abbreviateVenue mappings v).isOk = true := by
  cases v with
  | null => rfl
  | bool b => exact absurd rfl (hb b)
  | num n => exact absurd rfl (hn n)
  | str s =>
    rw [abbreviateVenue]
    cases ht : (JSON.str s).truthy
    · rfl
    · exact abbreviateLoop_ok (JSON.str s) rfl mappings
  | arr xs =>
    rw [abbreviateVenue]
    cases ht : (JSON.arr xs).truthy
    · rfl
    · exact abbreviateLoop_ok (JSON.arr xs) rfl mappings
  | obj kvs =>
    rw [abbreviateVenue]
    cases ht : (JSON.obj kvs).truthy
    · rfl
    · exact abbreviateLoop_ok (JSON.obj kvs) rfl mappings

/-- Projection of one field never raises when the event's location.title
extraction is neither a boolean nor a number. -/
theorem projectField_ok (mappings : List (String × String)) (event : JSON)
    (hb : ∀ b, extractField event "location.title" ≠ JSON.bool b)
    (hn : ∀ n, extractField event "location.title" ≠ JSON.num n)
    (p : String) : (projectField mappings event p).isOk = true := by
  rw [projectField]
  by_cases hc : (decide (p = "location.title") && (extractField event p).truthy) = true
  · rw [if_pos hc]
    have hp : p = "location.title" :=
      of_decide_eq_true (Bool.and_eq_true_iff.mp hc).1
    subst hp
    exact abbreviateVenue_ok mappings _ hb hn
  · rw [if_neg hc]
    rfl

/-- The field loop never raises when no field can raise. -/
theorem projectLoop_ok (mappings : List (String × String)) (event : JSON)
    (hpf : ∀ p, (projectField mappings event p).isOk = true) (fs : List String) :
    ∀ acc, (projectLoop mappings event fs acc).isOk = true := by
  induction fs with
  | nil => intro acc; rfl
  | cons f rest ih =>
    intro acc
    rw [projectLoop]
    cases hp : projectField mappings event f with
    | error e =>
      have hf := hpf f
      rw [hp] at hf
      exact absurd hf Bool.false_ne_true
    | ok v => exact ih (dictInsert acc f v)

/-- When every event's projection succeeds, the skip filter keeps them all. -/
theorem filterMap_toOption_length (mappings : List (String × String))
    (fields : List String) (evs : List JSON)
    (h : ∀ e ∈ evs, (projectEvent mappings fields e).isOk = true) :
    (evs.filterMap (fun e => (projectEvent mappings fields e).toOption)).length =
      evs.length := by
  induction evs with
  | nil => rfl
  | cons e rest ih =>
    have he := h e (List.mem_cons_self e rest)
    obtain ⟨d, hd⟩ : ∃ d, projectEvent mappings fields e = Except.ok d := by
      cases hh : projectEvent mappings fields e with
      | error a => rw [hh] at he; exact absurd he Bool.false_ne_true
      | ok a => exact ⟨a, rfl⟩
    rw [List.filterMap_cons, hd]
    show (d :: rest.filterMap (fun e => (projectEvent mappings fields e).toOption)).length =
      rest.length + 1
    rw [List.length_cons, ih (fun x hx => h x (List.mem_cons_of_mem e hx))]

/-- C9 counterexample: a RawEvent whose `location.title` leaf is the boolean
`true` (a truthy non-container) makes projection raise a TypeError inside the
venue normalizer, so the per-event skip branch IS taken and the event
contributes no ProjectedEvent to the batch output. -/
theorem projectEvent_nonstring_cex :
    (projectEvent [("k", "v")] ["location.title"]
        (JSON.obj [("location", JSON.obj [("title", JSON.bool true)])])).isOk
      = false ∧
    processEvents [("k", "v")] ["location.title"]
        [("events",
          JSON.arr [JSON.obj [("location", JSON.obj [("title", JSON.bool true)])]])] =
      Except.ok [] :=
  ⟨rfl, rfl⟩

/-- C9 (amended): projecting a single RawEvent completes without raising
whenever the value extracted at `location.title` is neither a boolean nor a
number (in particular whenever it is a string, map, list or null); for a
batch of such events the per-event skip branch is never taken and every input
event contributes exactly one ProjectedEvent. -/
theorem projectEvent_total_of_safe (mappings : List (String × String))
    (fields : List String) (evs : List JSON)
    (h : ∀ e ∈ evs,
      (∀ b, extractField e "location.title" ≠ JSON.bool b) ∧
      (∀ n, extractField e "location.title" ≠ JSON.num n)) :
    (∀ e ∈ evs, (projectEvent mappings fields e).isOk = true) ∧
    (evs.filterMap (fun e => (projectEvent mappings fields e).toOption)).length =
      evs.length := by
  have hok : ∀ e ∈ evs, (projectEvent mappings fields e).isOk = true := by
    intro e he
    exact projectLoop_ok mappings e
      (fun p => projectField_ok mappings e (h e he).1 (h e he).2 p) fields []
  exact ⟨hok, filterMap_toOption_length mappings fields evs hok⟩

/-- Witness for `projectEvent_total_of_safe` at a concrete one-event batch. -/
theorem projectEvent_total_of_safe_witness :
    (∀ e ∈ [JSON.obj []], (projectEvent [("k", "v")] ["location.title"] e).isOk = true) ∧
    (([JSON.obj []] : List JSON).filterMap
        (fun e => (projectEvent [("k", "v")] ["location.title"] e).toOption)).length =
      ([JSON.obj []] : List JSON).length :=
  projectEvent_total_of_safe [("k", "v")] ["location.title"] [JSON.obj []] (by
    intro e he
    rw [List.mem_singleton] at he
    subst he
    exact ⟨fun b hb => JSON.noConfusion hb, fun n hn => JSON.noConfusion hn⟩)

/-- C7: the batch operation raises a structural ProcessingError, producing no
output, exactly when the response has no `events` key or its `events` value
is not a list; otherwise it returns the projections of the events in input
order (any skipped event excepted, preserving relative order via the ordered
filter). -/
theorem processEvents_structural (mappings : List (String × String))
    (fields : List String) (apiResponse : List (String × JSON)) :
    (lookupStr apiResponse "events" = none →
      processEvents mappings fields apiResponse =
        Except.error (PyError.processingError "Missing 'events' key in API response")) ∧
    (∀ v, lookupStr apiResponse "events" = some v → (∀ evs, v ≠ JSON.arr evs) →
      processEvents mappings fields apiResponse =
        Except.error (PyError.processingError "'events' field is not a list")) ∧
    (∀ evs, lookupStr apiResponse "events" = some (JSON.arr evs) →
      processEvents mappings fields apiResponse =
        Except.ok (evs.filterMap (fun e => (projectEvent mappings fields e).toOption))) := by
  refine ⟨?_, ?_, ?_⟩
  · intro h
    rw [processEvents, h]
  · intro v hv hnot
    rw [processEvents, hv]
    cases v with
    | arr evs => exact absurd rfl (hnot evs)
    | null => rfl
    | bool b => rfl
    | num n => rfl
    | str s => rfl
    | obj kvs => rfl
  · intro evs hv
    rw [processEvents, hv]

/-- Witness for `processEvents_structural` at the Scenario A response. -/
theorem processEvents_structural_witness :
    processEvents scenarioMapping scenarioFields scenarioResponse =
      Except.ok ([scenarioEvent].filterMap
        (fun e => (projectEvent scenarioMapping scenarioFields e).toOption)) :=
  (processEvents_structural scenarioMapping scenarioFields scenarioResponse).2.2
    [scenarioEvent] rfl

/-- C5: the compact ("meshtastic") format renders each event as the values of
the first two FieldSet fields joined by a comma (just the one value for a
one-entry FieldSet), events separated by `#` with a trailing `#` appended;
the empty event sequence renders as exactly `"#"`; and Scenario A renders as
`"Brownwood,Jazz Band#"`. -/
theorem formatMeshtastic_spec (events : List ProjectedEvent) (fieldNames : List String) :
    (formatMeshtastic [] fieldNames = "#") ∧
    (events ≠ [] →
      formatMeshtastic events fieldNames =
        String.intercalate "#"
          (events.map (fun event =>
            String.intercalate ","
              ((fieldNames.take 2).map
                (fun f => pyStr (dictGet event f (JSON.str "")))))) ++ "#") ∧
    (processEvents scenarioMapping scenarioFields scenarioResponse).map
        (fun evs => formatMeshtastic evs scenarioFields) =
      Except.ok "Brownwood,Jazz Band#" := by
  refine ⟨rfl, ?_, rfl⟩
  intro hne
  rw [formatMeshtastic,
    if_neg (by simpa [List.isEmpty_iff] using hne)]
  have hfields :
      (if fieldNames.length ≥ 2 then fieldNames.take 2 else fieldNames) =
        fieldNames.take 2 := by
    by_cases h2 : fieldNames.length ≥ 2
    · rw [if_pos h2]
    · rw [if_neg h2, List.take_of_length_le (by omega)]
  rw [hfields]

/-- Witness for `formatMeshtastic_spec` on a concrete non-empty sequence. -/
theorem formatMeshtastic_spec_witness :
    formatMeshtastic [[("a", JSON.str "x")]] ["a"] =
      String.intercalate "#"
        ([[("a", JSON.str "x")]].map (fun event =>
          String.intercalate ","
            (((["a"] : List String).take 2).map
              (fun f => pyStr (dictGet event f (JSON.str "")))))) ++ "#" :=
  (formatMeshtastic_spec [[("a", JSON.str "x")]] ["a"]).2.1 (by simp)

/-- Folding string appends from an initial string is the initial string
followed by the join. -/
theorem strJoin_foldl (l : List String) : ∀ a : String,
    l.foldl (fun acc s => acc ++ s) a = a ++ String.join l := by
  induction l with
  | nil => intro a; exact (String.append_empty a).symm
  | cons x xs ih =>
    intro a
    have hx : String.join (x :: xs) = x ++ String.join xs := by
      show (x :: xs).foldl (fun acc s => acc ++ s) "" = _
      rw [List.foldl_cons, ih ("" ++ x), String.empty_append]
    rw [List.foldl_cons, ih (a ++ x), String.append_assoc, hx]

/-- Accumulating one rendered row per element equals the initial string
followed by the joined rows. -/
theorem foldl_append_join {α : Type} (g : α → String) (l : List α) (init : String) :
    l.foldl (fun acc e => acc ++ g e) init = init ++ String.join (l.map g) := by
  induction l generalizing init with
  | nil => exact (String.append_empty init).symm
  | cons e rest ih =>
    have hx : String.join (g e :: rest.map g) = g e ++ String.join (rest.map g) := by
      show (g e :: rest.map g).foldl (fun acc s => acc ++ s) "" = _
      rw [List.foldl_cons, strJoin_foldl (rest.map g) ("" ++ g e), String.empty_append]
    rw [List.foldl_cons, List.map_cons, ih (init ++ g e), hx, String.append_assoc]

/-- C6: the tabular ("csv") format renders the header row of the FieldSet's
entries in order followed by one row per event with values in the same order
(empty string for absent fields, via `dictGet`), with minimal CSV quoting
(quote and double-quote exactly when a cell embeds a comma, quote, or
newline); the empty event sequence renders as just the header row. -/
theorem formatCsv_spec (events : List ProjectedEvent) (fieldNames : List String) :
    formatCsv events fieldNames =
      csvRow fieldNames ++
        String.join (events.map (fun event =>
          csvRow (fieldNames.map (fun f => pyStr (dictGet event f (JSON.str "")))))) ∧
    formatCsv [] fieldNames = csvRow fieldNames ∧
    csvRow fieldNames = String.intercalate "," (fieldNames.map csvQuote) ++ "\r\n" ∧
    csvQuote "plain" = "plain" ∧
    csvQuote "a,b" = "\"a,b\"" ∧
    csvQuote "a\"b" = "\"a\"\"b\"" ∧
    csvQuote "a\nb" = "\"a\nb\"" :=
  ⟨foldl_append_join _ events (csvRow fieldNames), rfl, rfl, rfl, rfl, rfl, rfl⟩

/-- A character list starts with itself, whatever follows. -/
theorem startsWithList_self_append (l t : List Char) :
    startsWithList l (l ++ t) = true := by
  induction l with
  | nil => rfl
  | cons c rest ih => simp [startsWithList, ih]

/-- A character list occurs at the front of itself plus any suffix. -/
theorem occursIn_self_append (l t : List Char) : occursIn l (l ++ t) = true := by
  cases l with
  | nil =>
    cases t with
    | nil => rfl
    | cons c rest => rfl
  | cons c rest =>
    rw [List.cons_append, occursIn,
      show startsWithList (c :: rest) (c :: (rest ++ t)) = true from
        startsWithList_self_append (c :: rest) t,
      Bool.true_or]

/-- Occurrence is stable under extending the haystack on the left by one. -/
theorem occursIn_cons (n : List Char) (c : Char) (h : List Char)
    (hh : occursIn n h = true) : occursIn n (c :: h) = true := by
  rw [occursIn, hh, Bool.or_true]

/-- Occurrence is stable under any left extension of the haystack. -/
theorem occursIn_append_of (n p t : List Char) (h : occursIn n t = true) :
    occursIn n (p ++ t) = true := by
  induction p with
  | nil => simpa using h
  | cons c rest ih => exact occursIn_cons n c (rest ++ t) ih

/-- A string is contained in any concatenation enclosing it. -/
theorem strContains_append (s p q : String) :
    strContains s (p ++ (s ++ q)) = true := by
  rw [strContains, String.data_append, String.data_append]
  exact occursIn_append_of s.data p.data (s.data ++ q.data)
    (occursIn_self_append s.data q.data)

/-- A string is contained in any string it ends. -/
theorem strContains_prefix_append (s p : String) : strContains s (p ++ s) = true := by
  rw [strContains, String.data_append]
  exact occursIn_append_of s.data p.data s.data
    (by simpa using occursIn_self_append s.data [])

/-- C8: the renderer dispatch fails with an invalid-argument (ValueError)
error on every format identifier outside the four valid ones, producing no
output, and the error message contains the offending identifier and the list
of the four valid options; on the four valid identifiers it never raises. -/
theorem formatEvents_dispatch (events : List ProjectedEvent) (formatType : String)
    (fieldNames : Option (List String)) :
    (formatType ∉ (["meshtastic", "json", "csv", "plain"] : List String) →
      formatEvents events formatType fieldNames =
        Except.error (PyError.valueError ("Invalid format type: " ++ formatType ++
          ". Valid options are: meshtastic, json, csv, plain")) ∧
      strContains formatType ("Invalid format type: " ++ formatType ++
        ". Valid options are: meshtastic, json, csv, plain") = true ∧
      strContains "meshtastic, json, csv, plain" ("Invalid format type: " ++
        formatType ++ ". Valid options are: meshtastic, json, csv, plain") = true) ∧
    (formatType ∈ (["meshtastic", "json", "csv", "plain"] : List String) →
      (formatEvents events formatType fieldNames).isOk = true) := by
  constructor
  · intro hnot
    have h1 : ¬ formatType = "meshtastic" := fun h => hnot (by simp [h])
    have h2 : ¬ formatType = "json" := fun h => hnot (by simp [h])
    have h3 : ¬ formatType = "csv" := fun h => hnot (by simp [h])
    have h4 : ¬ formatType = "plain" := fun h => hnot (by simp [h])
    refine ⟨?_, ?_, ?_⟩
    · rw [formatEvents, if_neg h1, if_neg h2, if_neg h3, if_neg h4]
    · rw [String.append_assoc]
      exact strContains_append formatType "Invalid format type: "
        ". Valid options are: meshtastic, json, csv, plain"
    · rw [show (". Valid options are: meshtastic, json, csv, plain" : String) =
          ". Valid options are: " ++ "meshtastic, json, csv, plain" from rfl,
        ← String.append_assoc]
      exact strContains_prefix_append "meshtastic, json, csv, plain" _
  · intro hmem
    simp only [List.mem_cons, List.not_mem_nil, or_false] at hmem
    rcases hmem with h | h | h | h <;> subst h <;> rfl

/-- Witness for `formatEvents_dispatch` at the identifiers "xml" and "csv". -/
theorem formatEvents_dispatch_witness :
    (formatEvents [] "xml" none =
        Except.error (PyError.valueError ("Invalid format type: " ++ "xml" ++
          ". Valid options are: meshtastic, json, csv, plain")) ∧
      strContains "xml" ("Invalid format type: " ++ "xml" ++
        ". Valid options are: meshtastic, json, csv, plain") = true ∧
      strContains "meshtastic, json, csv, plain" ("Invalid format type: " ++
        "xml" ++ ". Valid options are: meshtastic, json, csv, plain") = true) ∧
    (formatEvents [] "csv" none).isOk = true :=
  ⟨(formatEvents_dispatch [] "xml" none).1 (by decide),
   (formatEvents_dispatch [] "csv" none).2 (by decide)⟩
